
import Mathlib

/-!
Shallow embedding of the data pipeline of a browser-based financial data
visualization tool (source: script.js).  JavaScript numbers are modelled as
exact rationals extended with NaN and the two infinities; JavaScript cell
values (as produced by CSV parsing) are modelled as null / undefined /
number / string.  The relevant platform builtins (parseFloat, the Number
coercion, Date parsing restricted to ISO date strings) are modelled
explicitly so that the validation functions of the source can be embedded
verbatim.
-/

/-- Model of a JavaScript number: NaN, the infinities, or a finite value
(represented exactly as a rational; IEEE-754 rounding is abstracted away). -/
inductive JsNum where
  | nan : JsNum
  | inf : JsNum
  | neginf : JsNum
  | fin : ℚ → JsNum
deriving DecidableEq

/-- Model of a JavaScript value as appearing in a parsed CSV cell:
null, undefined, a number, or a string. -/
inductive CellValue where
  | null : CellValue
  | undef : CellValue
  | num : JsNum → CellValue
  | str : String → CellValue
deriving DecidableEq

/-- Predicate for the global isNaN test applied to a number. -/
def jsIsNaN : JsNum → Bool
  | JsNum.nan => true
  | _ => false

/-- Predicate for the global isFinite test applied to a number. -/
def jsIsFin : JsNum → Bool
  | JsNum.fin _ => true
  | _ => false

/-- Whitespace characters recognised by the JavaScript numeric and string
trimming rules (the common ones suffice for this model). -/
def isWsChar (c : Char) : Bool :=
  c = ' ' || c = '\t' || c = '\n' || c = '\r'

/-- Drop leading whitespace from a character list. -/
def stripWsLeft : List Char → List Char
  | [] => []
  | c :: r => if isWsChar c then stripWsLeft r else c :: r

/-- Consume an optional leading sign; returns whether the value is negated
and the remaining characters. -/
def parseSign : List Char → Bool × List Char
  | '-' :: r => (true, r)
  | '+' :: r => (false, r)
  | s => (false, s)

/-- Consume a maximal run of decimal digits, returned as digit values. -/
def takeDigits : List Char → List ℕ × List Char
  | [] => ([], [])
  | c :: r =>
    if c.isDigit then
      let p := takeDigits r
      ((c.toNat - 48) :: p.1, p.2)
    else ([], c :: r)

/-- Numeric value of a list of decimal digits. -/
def digitsVal (ds : List ℕ) : ℕ := ds.foldl (fun a d => 10 * a + d) 0

/-- Consume the literal word Infinity, if present. -/
def parseInfinity : List Char → Option (List Char)
  | 'I' :: 'n' :: 'f' :: 'i' :: 'n' :: 'i' :: 't' :: 'y' :: r => some r
  | _ => none

/-- Parse an optional decimal exponent part after the mantissa.  When the
character e or E is not followed by digits the exponent is not consumed
(matching parseFloat, which then stops before the e). -/
def parseExponent (mant : ℚ) (noExpRest : List Char) (r : List Char) :
    Option (ℚ × List Char) :=
  let sp := parseSign r
  let ep := takeDigits sp.2
  if ep.1.isEmpty then some (mant, noExpRest)
  else
    let e : ℤ := if sp.1 then -(digitsVal ep.1 : ℤ) else (digitsVal ep.1 : ℤ)
    some (mant * (10 : ℚ) ^ e, ep.2)

/-- Parse a maximal unsigned decimal numeral prefix: digits, an optional
fraction part, and an optional exponent.  Returns the exact value and the
unconsumed characters, or none when no digit is found.  Hexadecimal,
octal and binary literals are not modelled. -/
def parseNumeral (s : List Char) : Option (ℚ × List Char) :=
  let ip := takeDigits s
  let hadDot : Bool := match ip.2 with | '.' :: _ => true | _ => false
  let fp : List ℕ × List Char :=
    match ip.2 with
    | '.' :: r => takeDigits r
    | _ => ([], ip.2)
  let afterFrac := if hadDot then fp.2 else ip.2
  if ip.1.isEmpty && fp.1.isEmpty then none
  else
    let mant : ℚ :=
      (digitsVal ip.1 : ℚ) + (digitsVal fp.1 : ℚ) / ((10 : ℚ) ^ fp.1.length)
    match afterFrac with
    | 'e' :: r => parseExponent mant afterFrac r
    | 'E' :: r => parseExponent mant afterFrac r
    | _ => some (mant, afterFrac)

/-- Model of the parseFloat builtin on a string: skip leading whitespace,
read an optional sign, then either Infinity or a maximal decimal numeral
prefix; trailing garbage is ignored; NaN when nothing numeric is found. -/
def parseFloatStr (s : List Char) : JsNum :=
  let s1 := stripWsLeft s
  let sp := parseSign s1
  match parseInfinity sp.2 with
  | some _ => if sp.1 then JsNum.neginf else JsNum.inf
  | none =>
    match parseNumeral sp.2 with
    | some p => JsNum.fin (if sp.1 then -p.1 else p.1)
    | none => JsNum.nan

/-- Model of the ToNumber coercion on a string: after trimming whitespace
the whole remaining string must be a signed decimal numeral or Infinity;
an all-whitespace string coerces to 0; anything else is NaN. -/
def toNumberStr (s : List Char) : JsNum :=
  let s1 := stripWsLeft s
  if s1.isEmpty then JsNum.fin 0
  else
    let sp := parseSign s1
    match parseInfinity sp.2 with
    | some rest =>
      if rest.all isWsChar then (if sp.1 then JsNum.neginf else JsNum.inf)
      else JsNum.nan
    | none =>
      match parseNumeral sp.2 with
      | some p =>
        if p.2.all isWsChar then JsNum.fin (if sp.1 then -p.1 else p.1)
        else JsNum.nan
      | none => JsNum.nan

/-- Model of parseFloat applied to an arbitrary value (the argument is first
converted to a string; for a number that conversion round-trips). -/
def parseFloatCell : CellValue → JsNum
  | CellValue.null => JsNum.nan
  | CellValue.undef => JsNum.nan
  | CellValue.num w => w
  | CellValue.str s => parseFloatStr s.toList

/-- Model of the ToNumber coercion applied to an arbitrary value
(null coerces to 0, undefined to NaN). -/
def jsToNumber : CellValue → JsNum
  | CellValue.null => JsNum.fin 0
  | CellValue.undef => JsNum.nan
  | CellValue.num w => w
  | CellValue.str s => toNumberStr s.toList

/-- Embedding of isValidNumber (script.js 377-382):
value !== null && value !== undefined && !isNaN(parseFloat(value)) &&
isFinite(value).  Note that the last conjunct coerces the whole value,
not the parseFloat result. -/
def isValidNumber (value : CellValue) : Bool :=
  !(value == CellValue.null) && !(value == CellValue.undef) &&
    !(jsIsNaN (parseFloatCell value)) && jsIsFin (jsToNumber value)

/-- Embedding of ensureNumber (script.js 390-392):
isValidNumber(value) ? parseFloat(value) : defaultValue. -/
def ensureNumber (value defaultValue : CellValue) : CellValue :=
  if isValidNumber value then CellValue.num (parseFloatCell value)
  else defaultValue

/-- Truthiness of a JavaScript value (used by guards such as
row.index_name and the empty-date-input checks). -/
def jsTruthy : CellValue → Bool
  | CellValue.null => false
  | CellValue.undef => false
  | CellValue.num JsNum.nan => false
  | CellValue.num (JsNum.fin q) => !(q == 0)
  | CellValue.num _ => true
  | CellValue.str s => !s.isEmpty

/-- Value of a decimal digit character. -/
def digitVal (c : Char) : ℕ := c.toNat - 48

/-- Parse a strict ISO YYYY-MM-DD date string into an order-preserving
integer encoding of the date (year * 10000 + month * 100 + day), with
month in 1..12 and day in 1..31.  Anything else is rejected. -/
def parseIsoDate (s : List Char) : Option ℤ :=
  match s with
  | [y1, y2, y3, y4, '-', m1, m2, '-', d1, d2] =>
    if y1.isDigit && y2.isDigit && y3.isDigit && y4.isDigit &&
        m1.isDigit && m2.isDigit && d1.isDigit && d2.isDigit then
      let y := 1000 * digitVal y1 + 100 * digitVal y2 + 10 * digitVal y3 + digitVal y4
      let m := 10 * digitVal m1 + digitVal m2
      let d := 10 * digitVal d1 + digitVal d2
      if 1 ≤ m && m ≤ 12 && 1 ≤ d && d ≤ 31 then
        some ((y * 10000 + m * 100 + d : ℕ) : ℤ)
      else none
    else none
  | _ => none

/-- Model of the Date constructor on a list of characters, restricted to
ISO YYYY-MM-DD strings (the native ISO-like parsing used by the source;
an unrecognised string gives an Invalid Date, i.e. a NaN timestamp).
The timestamp is the order-preserving date encoding of parseIsoDate. -/
def jsNewDateChars (s : List Char) : JsNum :=
  match parseIsoDate s with
  | some t => JsNum.fin (t : ℚ)
  | none => JsNum.nan

/-- Model of the Date constructor on a string. -/
def jsNewDateStr (s : String) : JsNum := jsNewDateChars s.toList

/-- Model of the Date constructor applied to an arbitrary value
(a finite number is a valid timestamp; null is the epoch). -/
def jsNewDate : CellValue → JsNum
  | CellValue.null => JsNum.fin 0
  | CellValue.undef => JsNum.nan
  | CellValue.num (JsNum.fin q) => JsNum.fin q
  | CellValue.num _ => JsNum.nan
  | CellValue.str s => jsNewDateStr s

/-- Recognise the DD/MM/YYYY fallback pattern of validateDate
(script.js 344-348) and rebuild the ISO string the source constructs
from the match groups. -/
def ddmmyyyyToIso (s : List Char) : Option (List Char) :=
  match s with
  | [d1, d2, '/', m1, m2, '/', y1, y2, y3, y4] =>
    if d1.isDigit && d2.isDigit && m1.isDigit && m2.isDigit &&
        y1.isDigit && y2.isDigit && y3.isDigit && y4.isDigit then
      some [y1, y2, y3, y4, '-', m1, m2, '-', d1, d2]
    else none
  | _ => none

/-- Recognise the MM-DD-YYYY fallback pattern of validateDate
(script.js 349-353) and rebuild the ISO string the source constructs
from the match groups. -/
def mmddyyyyToIso (s : List Char) : Option (List Char) :=
  match s with
  | [m1, m2, '-', d1, d2, '-', y1, y2, y3, y4] =>
    if m1.isDigit && m2.isDigit && d1.isDigit && d2.isDigit &&
        y1.isDigit && y2.isDigit && y3.isDigit && y4.isDigit then
      some [y1, y2, y3, y4, '-', m1, m2, '-', d1, d2]
    else none
  | _ => none

/-- Embedding of validateDate (script.js 334-370): falsy values are
invalid; otherwise try native parsing; on failure try the DD/MM/YYYY and
MM-DD-YYYY fallback patterns, each rebuilt into ISO form and re-parsed.
The fallback regexes are only ever reached for string values. -/
def validateDate (dateStr : CellValue) : Bool :=
  if jsTruthy dateStr = false then false
  else if jsIsNaN (jsNewDate dateStr) = false then true
  else
    match dateStr with
    | CellValue.str s =>
      (match ddmmyyyyToIso s.toList with
       | some iso => !(jsIsNaN (jsNewDateChars iso))
       | none => false) ||
      (match mmddyyyyToIso s.toList with
       | some iso => !(jsIsNaN (jsNewDateChars iso))
       | none => false)
    | _ => false

/-- Canonical row shape of the dataset: the thirteen CSV columns the
source reads.  The source field names pe_ratio, pb_ratio are shortened
to pe_rat, pb_rat here. -/
structure RawRow where
  index_name : CellValue
  index_date : CellValue
  open_index_value : CellValue
  high_index_value : CellValue
  low_index_value : CellValue
  closing_index_value : CellValue
  points_change : CellValue
  change_percent : CellValue
  volume : CellValue
  turnover_rs_cr : CellValue
  pe_rat : CellValue
  pb_rat : CellValue
  div_yield : CellValue
deriving DecidableEq

/-- Row with every field null (used as the out-of-bounds default for
list indexing, which never occurs in the reachable cases). -/
def dfltRow : RawRow :=
  ⟨CellValue.null, CellValue.null, CellValue.null, CellValue.null,
   CellValue.null, CellValue.null, CellValue.null, CellValue.null,
   CellValue.null, CellValue.null, CellValue.null, CellValue.null,
   CellValue.null⟩

/-- Embedding of REQUIRED_HEADERS (script.js 13-16). -/
def REQUIRED_HEADERS : List String :=
  ["index_name", "index_date", "open_index_value", "high_index_value",
   "low_index_value", "closing_index_value"]

/-- Embedding of the required-header check of processCSVData
(script.js 242-244): the required headers whose exact name is absent
from the field list. -/
def missingRequiredHeaders (fields : List String) : List String :=
  REQUIRED_HEADERS.filter (fun header => !(fields.contains header))

/-- Embedding of the SchemaError condition of processCSVData
(script.js 246-250): an error is surfaced and no dataset is produced
exactly when the missing-required-header list is nonempty. -/
def schemaErrorTriggered (fields : List String) : Bool :=
  !(missingRequiredHeaders fields).isEmpty

/-- Embedding of the row-retention predicate of processCSVData
(script.js 264-271). -/
def keepRow (row : RawRow) : Bool :=
  jsTruthy row.index_name && validateDate row.index_date &&
    isValidNumber row.closing_index_value

/-- Embedding of the row-normalization map of processCSVData
(script.js 272-288): every numeric field is replaced by
ensureNumber(field, null); the spread keeps index_name and index_date. -/
def normalizeRow (row : RawRow) : RawRow :=
  { row with
    open_index_value := ensureNumber row.open_index_value CellValue.null,
    high_index_value := ensureNumber row.high_index_value CellValue.null,
    low_index_value := ensureNumber row.low_index_value CellValue.null,
    closing_index_value := ensureNumber row.closing_index_value CellValue.null,
    points_change := ensureNumber row.points_change CellValue.null,
    change_percent := ensureNumber row.change_percent CellValue.null,
    volume := ensureNumber row.volume CellValue.null,
    turnover_rs_cr := ensureNumber row.turnover_rs_cr CellValue.null,
    pe_rat := ensureNumber row.pe_rat CellValue.null,
    pb_rat := ensureNumber row.pb_rat CellValue.null,
    div_yield := ensureNumber row.div_yield CellValue.null }

/-- Embedding of the fullDataset construction of processCSVData
(script.js 263-288): filter the rows, then normalize each survivor. -/
def buildDataset (rows : List RawRow) : List RawRow :=
  (rows.filter keepRow).map normalizeRow

/-- JavaScript strict less-than on numbers (false whenever NaN is
involved). -/
def jsLtB : JsNum → JsNum → Bool
  | JsNum.nan, _ => false
  | _, JsNum.nan => false
  | JsNum.fin a, JsNum.fin b => decide (a < b)
  | JsNum.neginf, JsNum.neginf => false
  | JsNum.neginf, _ => true
  | _, JsNum.neginf => false
  | JsNum.inf, _ => false
  | JsNum.fin _, JsNum.inf => true

/-- JavaScript strict greater-than on numbers. -/
def jsGtB (a b : JsNum) : Bool := jsLtB b a

/-- JavaScript less-or-equal on numbers (false whenever NaN is
involved). -/
def jsLeB : JsNum → JsNum → Bool
  | JsNum.nan, _ => false
  | _, JsNum.nan => false
  | JsNum.fin a, JsNum.fin b => decide (a ≤ b)
  | JsNum.neginf, _ => true
  | _, JsNum.neginf => false
  | _, JsNum.inf => true
  | JsNum.inf, JsNum.fin _ => false

/-- JavaScript greater-or-equal on numbers. -/
def jsGeB (a b : JsNum) : Bool := jsLeB b a

/-- JavaScript addition on numbers (both operands already numbers). -/
def jsAdd : JsNum → JsNum → JsNum
  | JsNum.nan, _ => JsNum.nan
  | _, JsNum.nan => JsNum.nan
  | JsNum.inf, JsNum.neginf => JsNum.nan
  | JsNum.neginf, JsNum.inf => JsNum.nan
  | JsNum.inf, _ => JsNum.inf
  | _, JsNum.inf => JsNum.inf
  | JsNum.neginf, _ => JsNum.neginf
  | _, JsNum.neginf => JsNum.neginf
  | JsNum.fin a, JsNum.fin b => JsNum.fin (a + b)

/-- JavaScript negation on numbers. -/
def jsNeg : JsNum → JsNum
  | JsNum.nan => JsNum.nan
  | JsNum.inf => JsNum.neginf
  | JsNum.neginf => JsNum.inf
  | JsNum.fin a => JsNum.fin (-a)

/-- JavaScript subtraction on numbers. -/
def jsSub (a b : JsNum) : JsNum := jsAdd a (jsNeg b)

/-- JavaScript multiplication on numbers (signed zeroes are not
distinguished in this model). -/
def jsMul : JsNum → JsNum → JsNum
  | JsNum.nan, _ => JsNum.nan
  | _, JsNum.nan => JsNum.nan
  | JsNum.fin a, JsNum.fin b => JsNum.fin (a * b)
  | JsNum.inf, JsNum.fin b =>
    if b = 0 then JsNum.nan else if 0 < b then JsNum.inf else JsNum.neginf
  | JsNum.fin a, JsNum.inf =>
    if a = 0 then JsNum.nan else if 0 < a then JsNum.inf else JsNum.neginf
  | JsNum.neginf, JsNum.fin b =>
    if b = 0 then JsNum.nan else if 0 < b then JsNum.neginf else JsNum.inf
  | JsNum.fin a, JsNum.neginf =>
    if a = 0 then JsNum.nan else if 0 < a then JsNum.neginf else JsNum.inf
  | JsNum.inf, JsNum.inf => JsNum.inf
  | JsNum.inf, JsNum.neginf => JsNum.neginf
  | JsNum.neginf, JsNum.inf => JsNum.neginf
  | JsNum.neginf, JsNum.neginf => JsNum.inf

/-- JavaScript Math.abs on numbers. -/
def jsAbs : JsNum → JsNum
  | JsNum.nan => JsNum.nan
  | JsNum.inf => JsNum.inf
  | JsNum.neginf => JsNum.inf
  | JsNum.fin a => JsNum.fin |a|

/-- JavaScript division on numbers (signed zeroes are not
distinguished in this model). -/
def jsDiv : JsNum → JsNum → JsNum
  | JsNum.nan, _ => JsNum.nan
  | _, JsNum.nan => JsNum.nan
  | JsNum.fin a, JsNum.fin b =>
    if b = 0 then (if a = 0 then JsNum.nan else if 0 < a then JsNum.inf else JsNum.neginf)
    else JsNum.fin (a / b)
  | JsNum.inf, JsNum.fin b => if b < 0 then JsNum.neginf else JsNum.inf
  | JsNum.neginf, JsNum.fin b => if b < 0 then JsNum.inf else JsNum.neginf
  | JsNum.fin _, JsNum.inf => JsNum.fin 0
  | JsNum.fin _, JsNum.neginf => JsNum.fin 0
  | JsNum.inf, _ => JsNum.nan
  | JsNum.neginf, _ => JsNum.nan

/-- Comparator value of the date sort of filterDataByDateRange
(script.js 588-598): invalid dates compare after everything, two
invalid dates compare equal, otherwise the timestamp difference. -/
def sortCmp (a b : RawRow) : ℚ :=
  match jsNewDate a.index_date, jsNewDate b.index_date with
  | JsNum.fin qa, JsNum.fin qb => qa - qb
  | JsNum.fin _, _ => -1
  | _, JsNum.fin _ => 1
  | _, _ => 0

/-- Boolean order induced by the comparator, used by the stable sort. -/
def jsSortLe (a b : RawRow) : Bool := decide (sortCmp a b ≤ 0)

/-- Embedding of filterDataByDateRange (script.js 566-601): apply the
start-date filter when the start input is nonempty, then the end-date
filter when the end input is nonempty, then stable-sort by date with
invalid dates last.  The stable JavaScript Array.prototype.sort is
modelled by mergeSort over the comparator order. -/
def filterDataByDateRange (data : List RawRow) (startStr endStr : String) :
    List RawRow :=
  let d1 :=
    if startStr.isEmpty then data
    else
      let startDate := jsNewDateStr startStr
      data.filter (fun row =>
        let rowDate := jsNewDate row.index_date
        !(jsIsNaN rowDate) && jsGeB rowDate startDate)
  let d2 :=
    if endStr.isEmpty then d1
    else
      let endDate := jsNewDateStr endStr
      d1.filter (fun row =>
        let rowDate := jsNewDate row.index_date
        !(jsIsNaN rowDate) && jsLeB rowDate endDate)
  d2.mergeSort jsSortLe

/-- One line of the completeness indicator: metric label, percentage of
valid values, and tier keyword. -/
structure CompEntry where
  name : String
  percent : ℚ
  status : String
deriving DecidableEq

/-- Embedding of the tracked metric fields of analyzeDataCompleteness
(script.js 499-505). -/
def trackedFields : List (String × (RawRow → CellValue)) :=
  [("Price", fun r => r.closing_index_value),
   ("Volume", fun r => r.volume),
   ("P/E Ratio", fun r => r.pe_rat),
   ("P/B Ratio", fun r => r.pb_rat),
   ("Div Yield", fun r => r.div_yield)]

/-- Embedding of the per-field completeness computation of
analyzeDataCompleteness (script.js 507-525): percent of rows whose
field passes isValidNumber, classified as missing / partial / complete.
The display-side rounding (toFixed) is not part of the classification
and is not modelled. -/
def completenessOf (data : List RawRow) (fld : String × (RawRow → CellValue)) :
    CompEntry :=
  let validValues := data.filter (fun row => isValidNumber (fld.2 row))
  let percent : ℚ := ((validValues.length : ℚ) / (data.length : ℚ)) * 100
  let status :=
    if percent = 0 then "missing"
    else if percent < 90 then "partial"
    else "complete"
  ⟨fld.1, percent, status⟩

/-- Embedding of analyzeDataCompleteness (script.js 497-525),
restricted to the computed report (the DOM rendering is out of scope). -/
def analyzeDataCompleteness (data : List RawRow) : List CompEntry :=
  trackedFields.map (completenessOf data)

/-- Embedding of calculateAverage inside updateMetricsChart
(script.js 997-1003): keep the values that are valid numbers and
strictly positive, and return their mean, or null (none) when no value
survives the filter.  The callers pass normalized cells (numbers or
null), on which the reduce is plain numeric addition. -/
def calculateAverage (values : List CellValue) : Option JsNum :=
  let filteredValues :=
    values.filter (fun v => isValidNumber v && jsGtB (jsToNumber v) (JsNum.fin 0))
  if filteredValues.isEmpty then none
  else
    let s := filteredValues.foldl (fun sum val => jsAdd sum (jsToNumber val)) (JsNum.fin 0)
    some (jsDiv s (JsNum.fin (filteredValues.length : ℚ)))

/-- Embedding of the triangle-area computation of smartSampleData
(script.js 727-730), with the JavaScript coercions of the subtraction
operands made explicit. -/
def triArea (a b c : RawRow) : JsNum :=
  jsAbs (jsSub
    (jsMul (jsSub (jsToNumber a.index_date) (jsToNumber c.index_date))
           (jsSub (jsToNumber b.closing_index_value) (jsToNumber a.closing_index_value)))
    (jsMul (jsSub (jsToNumber a.index_date) (jsToNumber b.index_date))
           (jsSub (jsToNumber c.closing_index_value) (jsToNumber a.closing_index_value))))

/-- Ascending run of count integers starting at lo. -/
def intRangeAux (lo : ℤ) : ℕ → List ℤ
  | 0 => []
  | n + 1 => lo :: intRangeAux (lo + 1) n

/-- List of the integers from lo to hi inclusive (the index range of
the inner candidate loop). -/
def intRange (lo hi : ℤ) : List ℤ := intRangeAux lo (hi + 1 - lo).toNat

/-- One iteration of the inner candidate scan of smartSampleData
(script.js 716-736): skip candidates with an invalid closing value
(including when a or c is invalid), otherwise keep the candidate when
its triangle area strictly exceeds the best so far. -/
def scanStep (data : List RawRow) (a c : RawRow) (acc : ℤ × JsNum) (j : ℤ) :
    ℤ × JsNum :=
  let b := data.getD j.toNat dfltRow
  if isValidNumber a.closing_index_value && isValidNumber b.closing_index_value &&
      isValidNumber c.closing_index_value then
    let area := triArea a b c
    if jsGtB area acc.2 then (j, area) else acc
  else acc

/-- One bucket of smartSampleData (script.js 699-739): compute the
bucket boundaries, the representative c of the next bucket (clamped to
the last index), scan the candidates starting from maxArea = -1 and
maxAreaIdx = startIdx, and return the selected data point. -/
def lttbSelect (data : List RawRow) (bs : ℚ) (a : RawRow) (i : ℕ) : RawRow :=
  let n : ℤ := (data.length : ℤ)
  let startIdx : ℤ := ⌊(i : ℚ) * bs⌋ + 1
  let endIdx : ℤ := ⌊((i : ℚ) + 1) * bs⌋ + 1
  let nextBucketIdx : ℤ := min (⌊((i : ℚ) + 2) * bs⌋ + 1) (n - 1)
  let c := data.getD nextBucketIdx.toNat dfltRow
  let res := (intRange startIdx (min endIdx (n - 2))).foldl
    (scanStep data a c) (startIdx, JsNum.fin (-1))
  data.getD res.1.toNat dfltRow

/-- The bucket loop of smartSampleData: starting from the previously
selected point a and bucket index i, produce the selected point of each
remaining bucket, advancing a to each selection. -/
def lttbFrom (data : List RawRow) (bs : ℚ) : RawRow → ℕ → ℕ → List RawRow
  | _, _, 0 => []
  | a, i, fuel + 1 =>
    let s := lttbSelect data bs a i
    s :: lttbFrom data bs s (i + 1) fuel

/-- Embedding of smartSampleData (script.js 685-746): empty input gives
an empty output; an input no longer than maxPoints is returned
unchanged; otherwise the LTTB loop selects one point per interior
bucket between the first and last data points. -/
def smartSampleData (data : List RawRow) (maxPoints : ℤ) : List RawRow :=
  if data.isEmpty then []
  else if (data.length : ℤ) ≤ maxPoints then data
  else
    let bs : ℚ := ((data.length : ℚ) - 2) / ((maxPoints : ℚ) - 2)
    let first := data.getD 0 dfltRow
    (first :: lttbFrom data bs first 0 (maxPoints - 2).toNat) ++
      [data.getD (data.length - 1) dfltRow]

/-- Embedding of the null-tolerant entry point of smartSampleData: the
guard !data makes a null argument yield the empty output before any
other computation. -/
def smartSampleDataOpt : Option (List RawRow) → ℤ → List RawRow
  | none, _ => []
  | some data, maxPoints => smartSampleData data maxPoints

/-- Modelled from the spec: the planar date coordinate of a record, for
records whose date cell is a finite number. -/
def dateVal (r : RawRow) : ℚ :=
  match jsToNumber r.index_date with
  | JsNum.fin q => q
  | _ => 0

/-- Modelled from the spec: the planar close coordinate of a record, for
records whose closing value cell is a finite number. -/
def closeVal (r : RawRow) : ℚ :=
  match jsToNumber r.closing_index_value with
  | JsNum.fin q => q
  | _ => 0

/-- Modelled from the spec: the shoelace-style doubled triangle area over
the (date, close) planar coordinates of three records. -/
def specArea (a b c : RawRow) : ℚ :=
  |(dateVal a - dateVal c) * (closeVal b - closeVal a) -
    (dateVal a - dateVal b) * (closeVal c - closeVal a)|

/-- Cell holding a finite number. -/
def isFinNumCell : CellValue → Bool
  | CellValue.num (JsNum.fin _) => true
  | _ => false

/-- Record whose date and closing value are both finite numbers, i.e.
a record usable as a planar point for the LTTB area computation. -/
def numericRow (r : RawRow) : Bool :=
  isFinNumCell r.index_date && isFinNumCell r.closing_index_value

/-- Lower-cased character sequence of a header name, used to express
that two header spellings are casing variants of each other. -/
def lowerName (s : String) : List Char := s.toList.map Char.toLower

/-- Row used by the concrete completeness scenario: closing value 5. -/
def rowClose5 : RawRow :=
  { dfltRow with
    index_name := CellValue.str "A"
    closing_index_value := CellValue.num (JsNum.fin 5) }

/-- Row used by the concrete completeness scenario: closing value null. -/
def rowCloseNull : RawRow :=
  { dfltRow with index_name := CellValue.str "A" }

/-- Ten records of which exactly nine have a valid closing value. -/
def data10 : List RawRow := List.replicate 9 rowClose5 ++ [rowCloseNull]

/-- First tracked metric of the completeness analyzer. -/
def priceField : String × (RawRow → CellValue) :=
  ("Price", fun r => r.closing_index_value)

/-- Row of the concrete range-filter scenario: series A, the given ISO
date string, closing value 1. -/
def dRow (d : String) : RawRow :=
  { dfltRow with
    index_name := CellValue.str "A"
    index_date := CellValue.str d
    closing_index_value := CellValue.num (JsNum.fin 1) }

/-- Ten records dated 2021-01-01 through 2021-01-10. -/
def rows10 : List RawRow :=
  [dRow "2021-01-01", dRow "2021-01-02", dRow "2021-01-03", dRow "2021-01-04",
   dRow "2021-01-05", dRow "2021-01-06", dRow "2021-01-07", dRow "2021-01-08",
   dRow "2021-01-09", dRow "2021-01-10"]

/-- Sort key realised by the date comparator: the timestamp for a valid
date, top for an invalid one. -/
def sortKey (r : RawRow) : WithTop ℚ :=
  match jsNewDate r.index_date with
  | JsNum.fin q => (q : WithTop ℚ)
  | _ => ⊤

/-- Raw row used by the concrete normalization scenario: valid name,
ISO date, numeric close, every optional cell absent (null). -/
def wRow : RawRow :=
  { dfltRow with
    index_name := CellValue.str "A"
    index_date := CellValue.str "2021-01-05"
    closing_index_value := CellValue.num (JsNum.fin 5) }

/-- Record with numeric planar coordinates for the sampling scenario. -/
def nRow (d q : ℚ) : RawRow :=
  { dfltRow with
    index_name := CellValue.str "A"
    index_date := CellValue.num (JsNum.fin d)
    closing_index_value := CellValue.num (JsNum.fin q) }

/-- Four records with numeric dates 1..4; the second one carries the
large closing value. -/
def numData4 : List RawRow := [nRow 1 0, nRow 2 10, nRow 3 0, nRow 4 0]

/-- C10: for an empty or null input sequence, smartSampleData returns the
empty sequence (and, being a total function, never throws), for every
value of maxPoints. -/
theorem c10_empty_or_null_input : ∀ maxPoints : ℤ,
    smartSampleDataOpt none maxPoints = [] ∧
    smartSampleData [] maxPoints = [] ∧
    smartSampleDataOpt (some []) maxPoints = [] := by
  intro m
  refine ⟨rfl, ?_, ?_⟩ <;> simp [smartSampleData, smartSampleDataOpt]

/-- C4 counterexample: a header list containing exactly series name,
date and close still triggers the SchemaError path, because open, high
and low are also in REQUIRED_HEADERS. -/
theorem c4_counterexample :
    schemaErrorTriggered ["index_name", "index_date", "closing_index_value"] = true := by
  decide

/-- C4 amended: normalization fails with the SchemaError path iff the
header list is missing one of the six required headers (series name,
date, open, high, low, close), and the reported missing headers are
exactly the required headers absent from the list. -/
theorem c4_amended : ∀ fields : List String,
    (schemaErrorTriggered fields = true ↔
      ∃ h ∈ REQUIRED_HEADERS, h ∉ fields) ∧
    (∀ h : String, h ∈ missingRequiredHeaders fields ↔
      (h ∈ REQUIRED_HEADERS ∧ h ∉ fields)) := by
  intro fields
  constructor
  · simp [schemaErrorTriggered, missingRequiredHeaders, List.isEmpty_iff,
      List.filter_eq_nil_iff]
  · intro h
    simp [missingRequiredHeaders, List.mem_filter]

/-- C5 counterexample: a header list containing casing variants of the
required headers still reports the exact lowercase names as missing and
triggers the SchemaError path. -/
theorem c5_counterexample :
    lowerName "Index_Name" = lowerName "index_name" ∧
    "index_name" ∈ missingRequiredHeaders
      ["Index_Name", "INDEX_DATE", "Open_Index_Value", "High_Index_Value",
       "Low_Index_Value", "Closing_Index_Value"] ∧
    schemaErrorTriggered
      ["Index_Name", "INDEX_DATE", "Open_Index_Value", "High_Index_Value",
       "Low_Index_Value", "Closing_Index_Value"] = true := by
  refine ⟨by decide, by decide, by decide⟩

/-- C5 amended: the header lookup is case-sensitive exact matching: a
required header that is absent in its exact spelling is reported
missing even when a different casing of it appears in the header
list. -/
theorem c5_amended : ∀ (h : String) (fields : List String),
    h ∈ REQUIRED_HEADERS →
    (∃ f ∈ fields, lowerName f = lowerName h) →
    h ∉ fields →
    h ∈ missingRequiredHeaders fields ∧ schemaErrorTriggered fields = true := by
  intro h fields hreq _hvariant habs
  have hmem : h ∈ missingRequiredHeaders fields := by
    simp [missingRequiredHeaders, List.mem_filter, hreq, habs]
  refine ⟨hmem, ?_⟩
  simp [schemaErrorTriggered, List.isEmpty_iff]
  intro hnil
  rw [hnil] at hmem
  exact absurd hmem (List.not_mem_nil h)

/-- C5 witness: the amended case-sensitivity statement instantiated at
the header index_name and a concrete header list that contains only its
casing variant. -/
theorem c5_witness :
    "index_name" ∈ REQUIRED_HEADERS ∧
    (∃ f ∈ ["Index_Name", "INDEX_DATE", "Open_Index_Value", "High_Index_Value",
        "Low_Index_Value", "Closing_Index_Value"],
      lowerName f = lowerName "index_name") ∧
    "index_name" ∉ ["Index_Name", "INDEX_DATE", "Open_Index_Value",
        "High_Index_Value", "Low_Index_Value", "Closing_Index_Value"] ∧
    ("index_name" ∈ missingRequiredHeaders
        ["Index_Name", "INDEX_DATE", "Open_Index_Value", "High_Index_Value",
         "Low_Index_Value", "Closing_Index_Value"] ∧
      schemaErrorTriggered
        ["Index_Name", "INDEX_DATE", "Open_Index_Value", "High_Index_Value",
         "Low_Index_Value", "Closing_Index_Value"] = true) := by
  refine ⟨by decide, ⟨"Index_Name", by decide, by decide⟩, by decide, ?_⟩
  exact c5_amended "index_name" _ (by decide)
    ⟨"Index_Name", by decide, by decide⟩ (by decide)

/-- C6 counterexample: parseFloat of the string 3abc is finite, yet
isValidNumber rejects it, refuting the claim that every string with a
finite parseFloat result is accepted. -/
theorem c6_counterexample :
    jsIsFin (parseFloatCell (CellValue.str "3abc")) = true ∧
    isValidNumber (CellValue.str "3abc") = false := by
  refine ⟨by decide, by decide⟩

/-- Every full-string numeral that coerces to a finite number also has a
successful parseFloat prefix parse. -/
theorem parseFloat_fin_of_toNumber_fin (s : List Char)
    (hfin : jsIsFin (toNumberStr s) = true) (hne : stripWsLeft s ≠ []) :
    jsIsFin (parseFloatStr s) = true := by
  unfold toNumberStr at hfin
  unfold parseFloatStr
  dsimp only at hfin ⊢
  rw [if_neg (by simp [List.isEmpty_iff, hne])] at hfin
  cases hinf : parseInfinity (parseSign (stripWsLeft s)).2 with
  | some rest =>
    simp only [hinf] at hfin
    by_cases hall : rest.all isWsChar = true <;>
      by_cases hsgn : (parseSign (stripWsLeft s)).1 = true <;>
      simp [hall, hsgn, jsIsFin] at hfin
  | none =>
    simp only [hinf] at hfin ⊢
    cases hnum : parseNumeral (parseSign (stripWsLeft s)).2 with
    | some p => simp only [hnum]; rfl
    | none => simp only [hnum, jsIsFin] at hfin; exact absurd hfin (by decide)

/-- C6 amended: isValidNumber accepts a cell iff it is non-null and
non-undefined, parseFloat of it is not NaN, and the whole-value Number
coercion is finite; in particular every string that trims to a nonempty
full numeral coercing to a finite number is accepted, while a string
with only a finite numeric prefix and trailing garbage is rejected. -/
theorem c6_amended :
    (∀ v : CellValue, isValidNumber v = true ↔
      (v ≠ CellValue.null ∧ v ≠ CellValue.undef ∧
        jsIsNaN (parseFloatCell v) = false ∧ jsIsFin (jsToNumber v) = true)) ∧
    (∀ s : String, jsIsFin (toNumberStr s.toList) = true →
      stripWsLeft s.toList ≠ [] → isValidNumber (CellValue.str s) = true) := by
  constructor
  · intro v
    simp [isValidNumber, Bool.and_eq_true, beq_iff_eq]
    tauto
  · intro s hfin hne
    have hpf : jsIsFin (parseFloatStr s.toList) = true :=
      parseFloat_fin_of_toNumber_fin s.toList hfin hne
    simp only [isValidNumber, parseFloatCell, jsToNumber, Bool.and_eq_true,
      beq_iff_eq, Bool.not_eq_eq_eq_not, Bool.not_true]
    refine ⟨⟨⟨by simp, by simp⟩, ?_⟩, hfin⟩
    cases hv : parseFloatStr s.toList with
    | fin q => rfl
    | nan => rw [hv] at hpf; exact absurd hpf (by decide)
    | inf => rfl
    | neginf => rfl

/-- C6 witness: the amended acceptance statement instantiated at the
full numeral string 12.5. -/
theorem c6_witness :
    jsIsFin (toNumberStr "12.5".toList) = true ∧
    stripWsLeft "12.5".toList ≠ [] ∧
    isValidNumber (CellValue.str "12.5") = true := by
  refine ⟨by decide, by decide, c6_amended.2 "12.5" (by decide) (by decide)⟩

/-- C7: evaluation of the metrics averaging at metric values [0, 10] and
[0]: the v > 0 filter excludes the zero value from the mean, so the
average of [0, 10] is 10 (the claim expects 5) and the average of [0]
is null (the claim expects 0); the exclude-zero behavior is present. -/
theorem c7_zero_excluded_eval :
    calculateAverage [CellValue.num (JsNum.fin 0), CellValue.num (JsNum.fin 10)] =
      some (JsNum.fin 10) ∧
    calculateAverage [CellValue.num (JsNum.fin 0)] = none := by
  constructor
  · have hf : ([CellValue.num (JsNum.fin 0), CellValue.num (JsNum.fin 10)].filter
        (fun v => isValidNumber v && jsGtB (jsToNumber v) (JsNum.fin 0))) =
        [CellValue.num (JsNum.fin 10)] := by decide
    unfold calculateAverage
    rw [hf]
    simp [List.foldl, jsAdd, jsDiv, jsToNumber]
  · have hf : ([CellValue.num (JsNum.fin 0)].filter
        (fun v => isValidNumber v && jsGtB (jsToNumber v) (JsNum.fin 0))) = [] := by decide
    unfold calculateAverage
    rw [hf]
    rfl

/-- A value accepted by isValidNumber has a finite parseFloat result
(the validity test rejects every value whose full coercion is not a
finite number, which rules out the NaN and infinite parse results). -/
theorem valid_parseFloat_fin (v : CellValue) (h : isValidNumber v = true) :
    ∃ q : ℚ, parseFloatCell v = JsNum.fin q := by
  cases v with
  | null => exact absurd h (by decide)
  | undef => exact absurd h (by decide)
  | num w =>
    cases w with
    | fin q => exact ⟨q, rfl⟩
    | nan => exact absurd h (by decide)
    | inf => exact absurd h (by decide)
    | neginf => exact absurd h (by decide)
  | str s =>
    unfold isValidNumber at h
    simp only [Bool.and_eq_true] at h
    obtain ⟨⟨⟨hnull, hundef⟩, hnan0⟩, hfin⟩ := h
    have hnan : jsIsNaN (parseFloatCell (CellValue.str s)) = false := by
      simpa using hnan0
    by_cases hne : stripWsLeft s.toList = []
    · exfalso
      have hpn : parseFloatStr s.toList = JsNum.nan := by
        unfold parseFloatStr
        dsimp only
        rw [hne]
        rfl
      have hcell : parseFloatCell (CellValue.str s) = JsNum.nan := hpn
      rw [hcell] at hnan
      exact absurd hnan (by decide)
    · have hfin' : jsIsFin (toNumberStr s.toList) = true := hfin
      have hpf := parseFloat_fin_of_toNumber_fin s.toList hfin' hne
      cases hv : parseFloatStr s.toList with
      | fin q => exact ⟨q, hv⟩
      | nan => rw [hv] at hpf; exact absurd hpf (by decide)
      | inf => rw [hv] at hpf; exact absurd hpf (by decide)
      | neginf => rw [hv] at hpf; exact absurd hpf (by decide)

/-- C3: every record in the normalized dataset has a truthy (non-empty)
series name, a date that validates, and a finite numeric closing value;
each of the other numeric fields is null whenever its raw cell fails the
validity test (never defaulted to 0); and a textual zero cell and an
empty cell normalize to distinguishable values. -/
theorem c3_normalization_invariants : ∀ (rows : List RawRow) (r : RawRow),
    r ∈ buildDataset rows →
    (jsTruthy r.index_name = true ∧
      validateDate r.index_date = true ∧
      (∃ q : ℚ, r.closing_index_value = CellValue.num (JsNum.fin q))) ∧
    (∃ row0 ∈ rows, r = normalizeRow row0 ∧
      (isValidNumber row0.open_index_value = false → r.open_index_value = CellValue.null) ∧
      (isValidNumber row0.high_index_value = false → r.high_index_value = CellValue.null) ∧
      (isValidNumber row0.low_index_value = false → r.low_index_value = CellValue.null) ∧
      (isValidNumber row0.points_change = false → r.points_change = CellValue.null) ∧
      (isValidNumber row0.change_percent = false → r.change_percent = CellValue.null) ∧
      (isValidNumber row0.volume = false → r.volume = CellValue.null) ∧
      (isValidNumber row0.turnover_rs_cr = false → r.turnover_rs_cr = CellValue.null) ∧
      (isValidNumber row0.pe_rat = false → r.pe_rat = CellValue.null) ∧
      (isValidNumber row0.pb_rat = false → r.pb_rat = CellValue.null) ∧
      (isValidNumber row0.div_yield = false → r.div_yield = CellValue.null)) ∧
    (ensureNumber (CellValue.str "0") CellValue.null = CellValue.num (JsNum.fin 0) ∧
      ensureNumber (CellValue.str "") CellValue.null = CellValue.null) := by
  intro rows r hr
  unfold buildDataset at hr
  obtain ⟨row0, hmemf, rfl⟩ := List.mem_map.mp hr
  obtain ⟨hmem, hkeep⟩ := List.mem_filter.mp hmemf
  unfold keepRow at hkeep
  simp only [Bool.and_eq_true] at hkeep
  obtain ⟨⟨hname, hdate⟩, hclose⟩ := hkeep
  have hnull : ∀ x : CellValue, isValidNumber x = false →
      ensureNumber x CellValue.null = CellValue.null := by
    intro x hx
    unfold ensureNumber
    rw [if_neg (by simp [hx])]
  refine ⟨⟨hname, hdate, ?_⟩,
    ⟨row0, hmem, rfl, fun h => hnull _ h, fun h => hnull _ h, fun h => hnull _ h,
      fun h => hnull _ h, fun h => hnull _ h, fun h => hnull _ h, fun h => hnull _ h,
      fun h => hnull _ h, fun h => hnull _ h, fun h => hnull _ h⟩, ?_, ?_⟩
  · obtain ⟨q, hq⟩ := valid_parseFloat_fin _ hclose
    refine ⟨q, ?_⟩
    show ensureNumber row0.closing_index_value CellValue.null = _
    unfold ensureNumber
    rw [if_pos (by simp [hclose]), hq]
  · unfold ensureNumber
    rw [if_pos (by decide)]
    simp +decide [parseFloatCell, parseFloatStr, stripWsLeft, parseSign,
      parseInfinity, parseNumeral, takeDigits, digitsVal, isWsChar]
  · unfold ensureNumber
    rw [if_neg (by decide)]

/-- C9: for every non-empty record set, each entry of the completeness
report carries percentValid = 100 * validCount / totalCount for its
tracked metric, and its tier is missing iff the percentage is 0,
partial iff it is strictly between 0 and 90, and complete iff it is at
least 90 (the 90 boundary is inclusive). -/
theorem c9_tier_thresholds : ∀ data : List RawRow, data ≠ [] →
    ∀ e ∈ analyzeDataCompleteness data,
    (∃ fld ∈ trackedFields, e = completenessOf data fld ∧ e.name = fld.1 ∧
      e.percent = 100 * ((data.filter (fun row => isValidNumber (fld.2 row))).length : ℚ) /
        (data.length : ℚ)) ∧
    ((e.status = "missing") ↔ e.percent = 0) ∧
    ((e.status = "partial") ↔ (0 < e.percent ∧ e.percent < 90)) ∧
    ((e.status = "complete") ↔ 90 ≤ e.percent) := by
  intro data hne e he
  unfold analyzeDataCompleteness at he
  obtain ⟨fld, hfmem, rfl⟩ := List.mem_map.mp he
  have hperc : (completenessOf data fld).percent =
      ((data.filter (fun row => isValidNumber (fld.2 row))).length : ℚ) /
        (data.length : ℚ) * 100 := rfl
  have hnonneg : 0 ≤ (completenessOf data fld).percent := by
    rw [hperc]; positivity
  have hstat : (completenessOf data fld).status =
      (if (completenessOf data fld).percent = 0 then "missing"
       else if (completenessOf data fld).percent < 90 then "partial"
       else "complete") := rfl
  refine ⟨⟨fld, hfmem, rfl, rfl, by rw [hperc]; ring⟩, ?_⟩
  by_cases h0 : (completenessOf data fld).percent = 0
  · rw [hstat, if_pos h0]
    refine ⟨by simp [h0], ?_, ?_⟩
    · constructor
      · intro hcontr; exact absurd hcontr (by decide)
      · rintro ⟨hp, _⟩; rw [h0] at hp; exact absurd hp (by norm_num)
    · constructor
      · intro hcontr; exact absurd hcontr (by decide)
      · intro hge; rw [h0] at hge; exact absurd hge (by norm_num)
  · by_cases h90 : (completenessOf data fld).percent < 90
    · rw [hstat, if_neg h0, if_pos h90]
      exact ⟨⟨fun hc => absurd hc (by decide), fun hp => absurd hp h0⟩,
        ⟨fun _ => ⟨lt_of_le_of_ne hnonneg (Ne.symm h0), h90⟩, fun _ => rfl⟩,
        ⟨fun hc => absurd hc (by decide), fun hge => absurd h90 (not_lt.mpr hge)⟩⟩
    · rw [hstat, if_neg h0, if_neg h90]
      exact ⟨⟨fun hc => absurd hc (by decide), fun hp => absurd hp h0⟩,
        ⟨fun hc => absurd hc (by decide), fun hpair => absurd hpair.2 h90⟩,
        ⟨fun _ => le_of_not_lt h90, fun _ => rfl⟩⟩

/-- C9 witness: the tier thresholds instantiated at ten records with
nine valid closing values; the 90 percent boundary classifies as
complete. -/
theorem c9_witness :
    data10 ≠ [] ∧
    completenessOf data10 priceField ∈ analyzeDataCompleteness data10 ∧
    (((completenessOf data10 priceField).status = "missing" ↔
        (completenessOf data10 priceField).percent = 0) ∧
      ((completenessOf data10 priceField).status = "partial" ↔
        (0 < (completenessOf data10 priceField).percent ∧
          (completenessOf data10 priceField).percent < 90)) ∧
      ((completenessOf data10 priceField).status = "complete" ↔
        90 ≤ (completenessOf data10 priceField).percent)) ∧
    (completenessOf data10 priceField).percent = 90 ∧
    (completenessOf data10 priceField).status = "complete" := by
  have hne : data10 ≠ [] := by decide
  have hmem : completenessOf data10 priceField ∈ analyzeDataCompleteness data10 := by
    unfold analyzeDataCompleteness
    refine List.mem_map.mpr ⟨priceField, ?_, rfl⟩
    unfold trackedFields priceField
    exact List.mem_cons_self _ _
  have main := (c9_tier_thresholds data10 hne _ hmem).2
  have hperc : (completenessOf data10 priceField).percent = 90 := by
    show ((data10.filter (fun row => isValidNumber (priceField.2 row))).length : ℚ) /
        (data10.length : ℚ) * 100 = 90
    rw [show (data10.filter (fun row => isValidNumber (priceField.2 row))).length = 9
        from by decide,
      show data10.length = 10 from by decide]
    norm_num
  have hstat : (completenessOf data10 priceField).status = "complete" :=
    main.2.2.mpr (by rw [hperc])
  exact ⟨hne, hmem, main, hperc, hstat⟩

/-- The comparator order used by the date sort coincides with the order
of the sort keys. -/
theorem jsSortLe_iff_key (a b : RawRow) :
    jsSortLe a b = true ↔ sortKey a ≤ sortKey b := by
  unfold jsSortLe sortCmp sortKey
  cases jsNewDate a.index_date <;> cases jsNewDate b.index_date <;>
    simp [sub_nonpos]

/-- The Date constructor model only produces NaN or a finite
timestamp. -/
theorem jsNewDate_fin_or_nan (c : CellValue) :
    jsNewDate c = JsNum.nan ∨ ∃ q : ℚ, jsNewDate c = JsNum.fin q := by
  cases c with
  | null => exact Or.inr ⟨0, rfl⟩
  | undef => exact Or.inl rfl
  | num w =>
    cases w with
    | fin q => exact Or.inr ⟨q, rfl⟩
    | nan => exact Or.inl rfl
    | inf => exact Or.inl rfl
    | neginf => exact Or.inl rfl
  | str s =>
    have hstep : jsNewDate (CellValue.str s) = jsNewDateChars s.toList := rfl
    rw [hstep]
    unfold jsNewDateChars
    cases parseIsoDate s.toList with
    | some t => exact Or.inr ⟨(t : ℚ), rfl⟩
    | none => exact Or.inl rfl

/-- Transitivity of the comparator order. -/
theorem jsSortLe_trans (a b c : RawRow) (hab : jsSortLe a b = true)
    (hbc : jsSortLe b c = true) : jsSortLe a c = true :=
  (jsSortLe_iff_key a c).mpr
    (le_trans ((jsSortLe_iff_key a b).mp hab) ((jsSortLe_iff_key b c).mp hbc))

/-- Totality of the comparator order. -/
theorem jsSortLe_total (a b : RawRow) : (jsSortLe a b || jsSortLe b a) = true := by
  rcases le_total (sortKey a) (sortKey b) with h | h
  · rw [(jsSortLe_iff_key a b).mpr h]; rfl
  · rw [(jsSortLe_iff_key b a).mpr h, Bool.or_true]

/-- A list equal to a singleton merge-sorts to that singleton. -/
theorem mergeSort_eq_singleton (l : List RawRow) (x : RawRow) (h : l = [x]) :
    l.mergeSort jsSortLe = [x] := by
  subst h
  exact List.perm_singleton.mp (List.mergeSort_perm _ _)

/-- An empty list merge-sorts to the empty list. -/
theorem mergeSort_eq_nil (l : List RawRow) (h : l = []) :
    l.mergeSort jsSortLe = [] := by
  subst h
  exact List.Perm.eq_nil (List.mergeSort_perm _ _)

/-- A comparator-ordered pair cannot go from an invalid date to a valid
one: whatever follows an invalid date is invalid too. -/
theorem sortLe_nan_mono (a b : RawRow) (h : jsSortLe a b = true)
    (ha : jsIsNaN (jsNewDate a.index_date) = true) :
    jsIsNaN (jsNewDate b.index_date) = true := by
  have hadate : jsNewDate a.index_date = JsNum.nan := by
    rcases jsNewDate_fin_or_nan a.index_date with h0 | ⟨q, h0⟩
    · exact h0
    · rw [h0] at ha; simp [jsIsNaN] at ha
  rcases jsNewDate_fin_or_nan b.index_date with hb | ⟨q, hb⟩
  · rw [hb]; rfl
  · exfalso
    unfold jsSortLe sortCmp at h
    simp only [hadate, hb] at h
    exact absurd h (by decide)

/-- C8: the range filter is inclusive at both date bounds (on the ten
records dated 2021-01-01 through 2021-01-10, start = end = 2021-01-05
yields exactly the record dated 2021-01-05); a start bound after every
date yields the empty sequence; whenever a bound is supplied every
surviving record has a valid date satisfying the bound inclusively; the
output is always sorted by the comparator order (ascending dates); with
no bounds the output is a permutation of the input; and an invalid-date
record is never followed by a valid-date record, i.e. invalid dates
sort last. -/
theorem c8_range_filter :
    filterDataByDateRange rows10 "2021-01-05" "2021-01-05" = [dRow "2021-01-05"] ∧
    filterDataByDateRange rows10 "2021-01-11" "" = [] ∧
    (∀ (data : List RawRow) (s e : String) (r : RawRow),
      r ∈ filterDataByDateRange data s e →
      (s ≠ "" → jsIsNaN (jsNewDate r.index_date) = false ∧
        jsGeB (jsNewDate r.index_date) (jsNewDateStr s) = true) ∧
      (e ≠ "" → jsIsNaN (jsNewDate r.index_date) = false ∧
        jsLeB (jsNewDate r.index_date) (jsNewDateStr e) = true)) ∧
    (∀ (data : List RawRow) (s e : String),
      List.Pairwise (fun a b => jsSortLe a b = true) (filterDataByDateRange data s e)) ∧
    (∀ data : List RawRow, (filterDataByDateRange data "" "").Perm data) ∧
    (∀ (data : List RawRow) (s e : String) (i j : ℕ), i < j →
      j < (filterDataByDateRange data s e).length →
      jsIsNaN (jsNewDate ((filterDataByDateRange data s e).getD i dfltRow).index_date) = true →
      jsIsNaN (jsNewDate ((filterDataByDateRange data s e).getD j dfltRow).index_date) = true) := by
  have hpair : ∀ (data : List RawRow) (s e : String),
      List.Pairwise (fun a b => jsSortLe a b = true) (filterDataByDateRange data s e) := by
    intro data s e
    unfold filterDataByDateRange
    dsimp only
    exact List.sorted_mergeSort jsSortLe_trans jsSortLe_total _
  refine ⟨?_, ?_, ?_, hpair, ?_, ?_⟩
  · unfold filterDataByDateRange
    dsimp only
    rw [if_neg (by decide), if_neg (by decide)]
    exact mergeSort_eq_singleton _ _ (by decide)
  · unfold filterDataByDateRange
    dsimp only
    rw [if_pos (by decide), if_neg (by decide)]
    exact mergeSort_eq_nil _ (by decide)
  · intro data s e r hr
    unfold filterDataByDateRange at hr
    dsimp only at hr
    have hr2 := List.mem_mergeSort.mp hr
    have hsE : s ≠ "" → s.isEmpty = false := by
      intro hs
      cases hemp : s.isEmpty
      · rfl
      · exact absurd ((String.isEmpty_iff s).mp hemp) hs
    have heE : e ≠ "" → e.isEmpty = false := by
      intro hcond
      cases hemp : e.isEmpty
      · rfl
      · exact absurd ((String.isEmpty_iff e).mp hemp) hcond
    constructor
    · intro hs
      have hr1 : r ∈ (if s.isEmpty = true then data
          else data.filter (fun row =>
            !(jsIsNaN (jsNewDate row.index_date)) &&
              jsGeB (jsNewDate row.index_date) (jsNewDateStr s))) := by
        by_cases he : e.isEmpty = true
        · rw [if_pos he] at hr2; exact hr2
        · rw [if_neg he] at hr2; exact (List.mem_filter.mp hr2).1
      rw [if_neg (by simp [hsE hs])] at hr1
      have hpred := (List.mem_filter.mp hr1).2
      simp only [Bool.and_eq_true, Bool.not_eq_true'] at hpred
      exact ⟨hpred.1, hpred.2⟩
    · intro hcond
      rw [if_neg (by simp [heE hcond])] at hr2
      have hpred := (List.mem_filter.mp hr2).2
      simp only [Bool.and_eq_true, Bool.not_eq_true'] at hpred
      exact ⟨hpred.1, hpred.2⟩
  · intro data
    unfold filterDataByDateRange
    dsimp only
    rw [if_pos (by decide), if_pos (by decide)]
    exact List.mergeSort_perm data jsSortLe
  · intro data s e i j hij hjlen hinv
    have hi : i < (filterDataByDateRange data s e).length := lt_trans hij hjlen
    have hle := List.pairwise_iff_getElem.mp (hpair data s e) i j hi hjlen hij
    rw [List.getD_eq_getElem _ _ hi] at hinv
    rw [List.getD_eq_getElem _ _ hjlen]
    exact sortLe_nan_mono _ _ hle hinv

/-- C8 witness: the bound-satisfaction part of the range-filter theorem
instantiated at the ten dated records with start bound 2021-01-05. -/
theorem c8_witness :
    dRow "2021-01-05" ∈ filterDataByDateRange rows10 "2021-01-05" "" ∧
    ("2021-01-05" : String) ≠ "" ∧
    (jsIsNaN (jsNewDate (dRow "2021-01-05").index_date) = false ∧
      jsGeB (jsNewDate (dRow "2021-01-05").index_date) (jsNewDateStr "2021-01-05") = true) := by
  have hmem : dRow "2021-01-05" ∈ filterDataByDateRange rows10 "2021-01-05" "" := by
    unfold filterDataByDateRange
    dsimp only
    exact List.mem_mergeSort.mpr (by decide)
  have hs : ("2021-01-05" : String) ≠ "" := by decide
  exact ⟨hmem, hs, (c8_range_filter.2.2.1 rows10 "2021-01-05" "" _ hmem).1 hs⟩

/-- C3 witness: the normalization invariants instantiated at a concrete
one-row input with a valid name, date and close and absent optional
cells. -/
theorem c3_witness :
    normalizeRow wRow ∈ buildDataset [wRow] ∧
    ((jsTruthy (normalizeRow wRow).index_name = true ∧
      validateDate (normalizeRow wRow).index_date = true ∧
      (∃ q : ℚ, (normalizeRow wRow).closing_index_value = CellValue.num (JsNum.fin q))) ∧
    (∃ row0 ∈ [wRow], normalizeRow wRow = normalizeRow row0 ∧
      (isValidNumber row0.open_index_value = false →
        (normalizeRow wRow).open_index_value = CellValue.null) ∧
      (isValidNumber row0.high_index_value = false →
        (normalizeRow wRow).high_index_value = CellValue.null) ∧
      (isValidNumber row0.low_index_value = false →
        (normalizeRow wRow).low_index_value = CellValue.null) ∧
      (isValidNumber row0.points_change = false →
        (normalizeRow wRow).points_change = CellValue.null) ∧
      (isValidNumber row0.change_percent = false →
        (normalizeRow wRow).change_percent = CellValue.null) ∧
      (isValidNumber row0.volume = false →
        (normalizeRow wRow).volume = CellValue.null) ∧
      (isValidNumber row0.turnover_rs_cr = false →
        (normalizeRow wRow).turnover_rs_cr = CellValue.null) ∧
      (isValidNumber row0.pe_rat = false →
        (normalizeRow wRow).pe_rat = CellValue.null) ∧
      (isValidNumber row0.pb_rat = false →
        (normalizeRow wRow).pb_rat = CellValue.null) ∧
      (isValidNumber row0.div_yield = false →
        (normalizeRow wRow).div_yield = CellValue.null)) ∧
    (ensureNumber (CellValue.str "0") CellValue.null = CellValue.num (JsNum.fin 0) ∧
      ensureNumber (CellValue.str "") CellValue.null = CellValue.null)) :=
  ⟨by decide, c3_normalization_invariants [wRow] (normalizeRow wRow) (by decide)⟩

/-- The bucket loop produces exactly one selection per bucket. -/
theorem lttbFrom_length (data : List RawRow) (bs : ℚ) :
    ∀ (fuel : ℕ) (a : RawRow) (i : ℕ), (lttbFrom data bs a i fuel).length = fuel := by
  intro fuel
  induction fuel with
  | zero => intro a i; rfl
  | succ k ih =>
    intro a i
    unfold lttbFrom
    dsimp only
    rw [List.length_cons, ih]

/-- Last element of a list of the form first :: interior ++ [last]. -/
theorem sandwich_getD_last (a x : RawRow) (l : List RawRow) :
    ((a :: l) ++ [x]).getD (((a :: l) ++ [x]).length - 1) dfltRow = x := by
  have h1 : ((a :: l) ++ [x]).length - 1 = l.length + 1 := by
    simp only [List.length_append, List.length_cons, List.length_nil]
    omega
  rw [h1]
  have hcons : ((a :: l) ++ [x]).getD (l.length + 1) dfltRow =
      (l ++ [x]).getD l.length dfltRow := rfl
  rw [hcons, List.getD_append_right l [x] dfltRow l.length le_rfl,
    Nat.sub_self]
  rfl

/-- C1: for input length at least 2 and maxPoints at least 2, the LTTB
sampler output has length min(length, maxPoints), starts with the first
input record and ends with the last one; and when the input is no
longer than maxPoints it is returned unchanged. -/
theorem c1_lttb_invariants : ∀ (data : List RawRow) (maxPoints : ℤ),
    2 ≤ data.length → 2 ≤ maxPoints →
    (smartSampleData data maxPoints).length = min data.length maxPoints.toNat ∧
    (smartSampleData data maxPoints).getD 0 dfltRow = data.getD 0 dfltRow ∧
    (smartSampleData data maxPoints).getD
        ((smartSampleData data maxPoints).length - 1) dfltRow =
      data.getD (data.length - 1) dfltRow ∧
    ((data.length : ℤ) ≤ maxPoints → smartSampleData data maxPoints = data) := by
  intro data m hn hm
  have hne : data ≠ [] := by
    intro h
    rw [h] at hn
    exact absurd hn (by decide)
  have hnE : data.isEmpty = false := by
    cases data with
    | nil => exact absurd rfl hne
    | cons a t => rfl
  unfold smartSampleData
  rw [if_neg (by simp [hnE])]
  by_cases hle : (data.length : ℤ) ≤ m
  · rw [if_pos hle]
    have hminn : data.length ≤ m.toNat := by omega
    exact ⟨(min_eq_left hminn).symm, rfl, rfl, fun _ => rfl⟩
  · rw [if_neg hle]
    dsimp only
    have hmlt : m < (data.length : ℤ) := lt_of_not_le hle
    refine ⟨?_, rfl, ?_, fun hcontr => absurd hcontr hle⟩
    · rw [List.length_append, List.length_cons, lttbFrom_length]
      simp only [List.length_singleton]
      omega
    · rw [sandwich_getD_last]

/-- C1 witness: the LTTB invariants instantiated at ten records sampled
down to five points. -/
theorem c1_witness :
    2 ≤ rows10.length ∧ 2 ≤ (5 : ℤ) ∧
    ((smartSampleData rows10 5).length = min rows10.length (5 : ℤ).toNat ∧
      (smartSampleData rows10 5).getD 0 dfltRow = rows10.getD 0 dfltRow ∧
      (smartSampleData rows10 5).getD
          ((smartSampleData rows10 5).length - 1) dfltRow =
        rows10.getD (rows10.length - 1) dfltRow ∧
      ((rows10.length : ℤ) ≤ 5 → smartSampleData rows10 5 = rows10)) :=
  ⟨by decide, by decide, c1_lttb_invariants rows10 5 (by decide) (by decide)⟩

/-- Membership in an inclusive integer range. -/
theorem intRangeAux_mem (j : ℤ) : ∀ (n : ℕ) (lo : ℤ),
    j ∈ intRangeAux lo n ↔ lo ≤ j ∧ j < lo + n := by
  intro n
  induction n with
  | zero =>
    intro lo
    simp [intRangeAux]
  | succ k ih =>
    intro lo
    simp only [intRangeAux, List.mem_cons, ih (lo + 1)]
    omega

theorem intRange_mem (lo hi j : ℤ) : j ∈ intRange lo hi ↔ lo ≤ j ∧ j ≤ hi := by
  unfold intRange
  rw [intRangeAux_mem]
  omega

/-- An in-bounds getD is a member of the list. -/
theorem getD_mem_of_lt (data : List RawRow) (k : ℕ) (h : k < data.length) :
    data.getD k dfltRow ∈ data := by
  rw [List.getD_eq_getElem _ _ h]
  exact List.getElem_mem h

/-- A finite-number cell is literally num (fin q) for some q. -/
theorem isFinNumCell_elim (v : CellValue) (h : isFinNumCell v = true) :
    ∃ q : ℚ, v = CellValue.num (JsNum.fin q) := by
  cases v with
  | null => exact absurd h (by decide)
  | undef => exact absurd h (by decide)
  | str s => simp [isFinNumCell] at h
  | num w =>
    cases w with
    | fin q => exact ⟨q, rfl⟩
    | nan => exact absurd h (by decide)
    | inf => exact absurd h (by decide)
    | neginf => exact absurd h (by decide)

/-- A finite-number cell passes the numeric-validity test. -/
theorem isValidNumber_of_fin (q : ℚ) :
    isValidNumber (CellValue.num (JsNum.fin q)) = true := rfl

/-- For three records with finite planar coordinates the JavaScript area
computation yields exactly the shoelace formula value. -/
theorem triArea_fin (a b c : RawRow) (ha : numericRow a = true)
    (hb : numericRow b = true) (hc : numericRow c = true) :
    triArea a b c = JsNum.fin (specArea a b c) := by
  simp only [numericRow, Bool.and_eq_true] at ha hb hc
  obtain ⟨qa, hda⟩ := isFinNumCell_elim _ ha.1
  obtain ⟨va, hca⟩ := isFinNumCell_elim _ ha.2
  obtain ⟨qb, hdb⟩ := isFinNumCell_elim _ hb.1
  obtain ⟨vb, hcb⟩ := isFinNumCell_elim _ hb.2
  obtain ⟨qc, hdc⟩ := isFinNumCell_elim _ hc.1
  obtain ⟨vc, hcc⟩ := isFinNumCell_elim _ hc.2
  unfold triArea specArea dateVal closeVal
  rw [hda, hca, hdb, hcb, hdc, hcc]
  simp only [jsToNumber, jsSub, jsAdd, jsNeg, jsMul, jsAbs]
  congr 1
  ring_nf

/-- Under valid closing values, one scan iteration keeps the running
best unless the candidate area strictly exceeds it. -/
theorem scanStep_eq (data : List RawRow) (a c : RawRow) (f : ℤ → ℚ)
    (j j0 : ℤ) (w : ℚ)
    (hg : (isValidNumber a.closing_index_value &&
      isValidNumber ((data.getD j.toNat dfltRow).closing_index_value) &&
      isValidNumber c.closing_index_value) = true)
    (harea : triArea a (data.getD j.toNat dfltRow) c = JsNum.fin (f j)) :
    scanStep data a c (j0, JsNum.fin w) j =
      if w < f j then (j, JsNum.fin (f j)) else (j0, JsNum.fin w) := by
  unfold scanStep
  dsimp only
  rw [if_pos hg, harea]
  by_cases hlt : w < f j
  · rw [if_pos (by simp [jsGtB, jsLtB, hlt]), if_pos hlt]
  · rw [if_neg (by simp [jsGtB, jsLtB, hlt]), if_neg hlt]

/-- The first component of the scan fold is the initial index or one of
the scanned candidates. -/
theorem scan_fold_fst_mem (data : List RawRow) (a c : RawRow) :
    ∀ (l : List ℤ) (acc : ℤ × JsNum),
    (l.foldl (scanStep data a c) acc).1 = acc.1 ∨
      (l.foldl (scanStep data a c) acc).1 ∈ l := by
  intro l
  induction l with
  | nil => intro acc; exact Or.inl rfl
  | cons j t ih =>
    intro acc
    rw [List.foldl_cons]
    have hstep : scanStep data a c acc j = acc ∨
        scanStep data a c acc j = (j, triArea a (data.getD j.toNat dfltRow) c) := by
      unfold scanStep
      dsimp only
      split_ifs with h1 h2
      · exact Or.inr rfl
      · exact Or.inl rfl
      · exact Or.inl rfl
    rcases hstep with h | h
    · rw [h]
      rcases ih acc with h2 | h2
      · exact Or.inl h2
      · exact Or.inr (List.mem_cons_of_mem _ h2)
    · rw [h]
      rcases ih (j, triArea a (data.getD j.toNat dfltRow) c) with h2 | h2
      · refine Or.inr ?_
        rw [h2]
        exact List.mem_cons_self _ _
      · exact Or.inr (List.mem_cons_of_mem _ h2)

/-- Full characterization of the scan fold: starting from a finite best
value, either nothing beats it and the accumulator is unchanged, or the
result is the candidate of maximal area (the first such in scan order),
with a strictly larger area than the initial value. -/
theorem scan_fold_spec (data : List RawRow) (a c : RawRow) (f : ℤ → ℚ) :
    ∀ l : List ℤ,
    (∀ j ∈ l, (isValidNumber a.closing_index_value &&
        isValidNumber ((data.getD j.toNat dfltRow).closing_index_value) &&
        isValidNumber c.closing_index_value) = true ∧
      triArea a (data.getD j.toNat dfltRow) c = JsNum.fin (f j)) →
    ∀ (j0 : ℤ) (w : ℚ),
    (l.foldl (scanStep data a c) (j0, JsNum.fin w) = (j0, JsNum.fin w) ∧
      ∀ j ∈ l, f j ≤ w) ∨
    ((l.foldl (scanStep data a c) (j0, JsNum.fin w)).1 ∈ l ∧
      (l.foldl (scanStep data a c) (j0, JsNum.fin w)).2 =
        JsNum.fin (f (l.foldl (scanStep data a c) (j0, JsNum.fin w)).1) ∧
      w < f (l.foldl (scanStep data a c) (j0, JsNum.fin w)).1 ∧
      ∀ j ∈ l, f j ≤ f (l.foldl (scanStep data a c) (j0, JsNum.fin w)).1) := by
  intro l
  induction l with
  | nil =>
    intro _ j0 w
    exact Or.inl ⟨rfl, by simp⟩
  | cons j t ih =>
    intro hval j0 w
    have hj := hval j (List.mem_cons_self j t)
    have hval2 : ∀ x ∈ t, (isValidNumber a.closing_index_value &&
        isValidNumber ((data.getD x.toNat dfltRow).closing_index_value) &&
        isValidNumber c.closing_index_value) = true ∧
        triArea a (data.getD x.toNat dfltRow) c = JsNum.fin (f x) :=
      fun x hx => hval x (List.mem_cons_of_mem j hx)
    rw [List.foldl_cons, scanStep_eq data a c f j j0 w hj.1 hj.2]
    by_cases hlt : w < f j
    · rw [if_pos hlt]
      rcases ih hval2 j (f j) with ⟨heq, hbound⟩ | ⟨hmem, hsnd, hwlt, hbound⟩
      · right
        rw [heq]
        refine ⟨List.mem_cons_self j t, rfl, hlt, ?_⟩
        intro x hx
        rcases List.mem_cons.mp hx with rfl | hx2
        · exact le_refl _
        · exact le_trans (hbound x hx2) (le_refl _)
      · right
        refine ⟨List.mem_cons_of_mem j hmem, hsnd, lt_trans hlt hwlt, ?_⟩
        intro x hx
        rcases List.mem_cons.mp hx with rfl | hx2
        · exact le_of_lt hwlt
        · exact hbound x hx2
    · rw [if_neg hlt]
      rcases ih hval2 j0 w with ⟨heq, hbound⟩ | ⟨hmem, hsnd, hwlt, hbound⟩
      · left
        refine ⟨heq, ?_⟩
        intro x hx
        rcases List.mem_cons.mp hx with rfl | hx2
        · exact le_of_not_lt hlt
        · exact hbound x hx2
      · right
        refine ⟨List.mem_cons_of_mem j hmem, hsnd, hwlt, ?_⟩
        intro x hx
        rcases List.mem_cons.mp hx with rfl | hx2
        · exact le_trans (le_of_not_lt hlt) (le_of_lt hwlt)
        · exact hbound x hx2

/-- A record with a finite closing cell passes the validity test. -/
theorem numericRow_validClose (r : RawRow) (h : numericRow r = true) :
    isValidNumber r.closing_index_value = true := by
  simp only [numericRow, Bool.and_eq_true] at h
  obtain ⟨q, hq⟩ := isFinNumCell_elim _ h.2
  rw [hq]
  rfl

/-- The bucket width is positive in the sampling branch. -/
theorem lttb_bs_pos (n : ℕ) (m : ℤ) (hm : 2 < m) (hmn : m < (n : ℤ)) :
    0 < ((n : ℚ) - 2) / ((m : ℚ) - 2) := by
  have h1 : (2 : ℚ) < (m : ℚ) := by exact_mod_cast hm
  have h2 : (2 : ℤ) < (n : ℤ) := lt_trans hm hmn
  have h3 : (2 : ℚ) < (n : ℚ) := by exact_mod_cast h2
  exact div_pos (by linarith) (by linarith)

/-- The bucket start index of every interior bucket stays at least two
slots before the end of the data. -/
theorem lttb_startIdx_le (n : ℕ) (m : ℤ) (i : ℕ) (hm : 2 < m)
    (hmn : m < (n : ℤ)) (hi : (i : ℤ) ≤ m - 3) :
    ⌊(i : ℚ) * (((n : ℚ) - 2) / ((m : ℚ) - 2))⌋ + 1 ≤ (n : ℤ) - 2 := by
  have h1 : (2 : ℚ) < (m : ℚ) := by exact_mod_cast hm
  have h2 : (2 : ℤ) < (n : ℤ) := lt_trans hm hmn
  have h3 : (2 : ℚ) < (n : ℚ) := by exact_mod_cast h2
  have h2m : (0 : ℚ) < (m : ℚ) - 2 := by linarith
  have h2n : (0 : ℚ) < (n : ℚ) - 2 := by linarith
  have hi2 : (i : ℚ) ≤ (m : ℚ) - 3 := by
    have : ((i : ℤ) : ℚ) ≤ ((m - 3 : ℤ) : ℚ) := by exact_mod_cast hi
    push_cast at this
    linarith
  have hkey : (i : ℚ) * (((n : ℚ) - 2) / ((m : ℚ) - 2)) < (n : ℚ) - 2 := by
    calc (i : ℚ) * (((n : ℚ) - 2) / ((m : ℚ) - 2))
        ≤ ((m : ℚ) - 3) * (((n : ℚ) - 2) / ((m : ℚ) - 2)) :=
          mul_le_mul_of_nonneg_right hi2 (le_of_lt (div_pos h2n h2m))
      _ = ((n : ℚ) - 2) * (((m : ℚ) - 3) / ((m : ℚ) - 2)) := by ring
      _ < ((n : ℚ) - 2) * 1 :=
          mul_lt_mul_of_pos_left ((div_lt_one h2m).mpr (by linarith)) h2n
      _ = (n : ℚ) - 2 := mul_one _
  have hfl : ⌊(i : ℚ) * (((n : ℚ) - 2) / ((m : ℚ) - 2))⌋ < (n : ℤ) - 2 := by
    rw [Int.floor_lt]
    push_cast
    exact hkey
  omega

/-- The candidate scan of one interior bucket selects an index of the
bucket that maximizes the shoelace area against the previously selected
point and the next-bucket representative; if some candidate strictly
beats the bucket's first index, the selection is not the first index. -/
theorem lttbSelect_spec (data : List RawRow) (m : ℤ) (a : RawRow) (i : ℕ)
    (hm : 2 < m) (hmn : m < (data.length : ℤ))
    (hnum : ∀ r ∈ data, numericRow r = true)
    (ha : numericRow a = true)
    (hi : (i : ℤ) ≤ m - 3) :
    ∃ j : ℤ,
      ⌊(i : ℚ) * (((data.length : ℚ) - 2) / ((m : ℚ) - 2))⌋ + 1 ≤ j ∧
      j ≤ min (⌊((i : ℚ) + 1) * (((data.length : ℚ) - 2) / ((m : ℚ) - 2))⌋ + 1)
        ((data.length : ℤ) - 2) ∧
      lttbSelect data (((data.length : ℚ) - 2) / ((m : ℚ) - 2)) a i =
        data.getD j.toNat dfltRow ∧
      (∀ k : ℤ,
        ⌊(i : ℚ) * (((data.length : ℚ) - 2) / ((m : ℚ) - 2))⌋ + 1 ≤ k →
        k ≤ min (⌊((i : ℚ) + 1) * (((data.length : ℚ) - 2) / ((m : ℚ) - 2))⌋ + 1)
          ((data.length : ℤ) - 2) →
        specArea a (data.getD k.toNat dfltRow)
          (data.getD (min (⌊((i : ℚ) + 2) * (((data.length : ℚ) - 2) / ((m : ℚ) - 2))⌋ + 1)
            ((data.length : ℤ) - 1)).toNat dfltRow) ≤
        specArea a (data.getD j.toNat dfltRow)
          (data.getD (min (⌊((i : ℚ) + 2) * (((data.length : ℚ) - 2) / ((m : ℚ) - 2))⌋ + 1)
            ((data.length : ℤ) - 1)).toNat dfltRow)) ∧
      ((∃ k : ℤ,
          (⌊(i : ℚ) * (((data.length : ℚ) - 2) / ((m : ℚ) - 2))⌋ + 1 ≤ k ∧
            k ≤ min (⌊((i : ℚ) + 1) * (((data.length : ℚ) - 2) / ((m : ℚ) - 2))⌋ + 1)
              ((data.length : ℤ) - 2)) ∧
          specArea a
            (data.getD (⌊(i : ℚ) * (((data.length : ℚ) - 2) / ((m : ℚ) - 2))⌋ + 1).toNat dfltRow)
            (data.getD (min (⌊((i : ℚ) + 2) * (((data.length : ℚ) - 2) / ((m : ℚ) - 2))⌋ + 1)
              ((data.length : ℤ) - 1)).toNat dfltRow) <
          specArea a (data.getD k.toNat dfltRow)
            (data.getD (min (⌊((i : ℚ) + 2) * (((data.length : ℚ) - 2) / ((m : ℚ) - 2))⌋ + 1)
              ((data.length : ℤ) - 1)).toNat dfltRow)) →
        ⌊(i : ℚ) * (((data.length : ℚ) - 2) / ((m : ℚ) - 2))⌋ + 1 < j) := by
  have hbs := lttb_bs_pos data.length m hm hmn
  have hlo0 : (0 : ℤ) ≤ ⌊(i : ℚ) * (((data.length : ℚ) - 2) / ((m : ℚ) - 2))⌋ := by
    rw [Int.le_floor]
    push_cast
    positivity
  have hlole : ⌊(i : ℚ) * (((data.length : ℚ) - 2) / ((m : ℚ) - 2))⌋ + 1 ≤
      (data.length : ℤ) - 2 := lttb_startIdx_le data.length m i hm hmn hi
  have hmono : ⌊(i : ℚ) * (((data.length : ℚ) - 2) / ((m : ℚ) - 2))⌋ ≤
      ⌊((i : ℚ) + 1) * (((data.length : ℚ) - 2) / ((m : ℚ) - 2))⌋ := by
    apply Int.floor_le_floor
    nlinarith [le_of_lt hbs]
  have hlohi : ⌊(i : ℚ) * (((data.length : ℚ) - 2) / ((m : ℚ) - 2))⌋ + 1 ≤
      min (⌊((i : ℚ) + 1) * (((data.length : ℚ) - 2) / ((m : ℚ) - 2))⌋ + 1)
        ((data.length : ℤ) - 2) := le_min (by omega) hlole
  have hcidx0 : (0 : ℤ) ≤ min (⌊((i : ℚ) + 2) * (((data.length : ℚ) - 2) / ((m : ℚ) - 2))⌋ + 1)
      ((data.length : ℤ) - 1) := by
    apply le_min
    · have : (0 : ℤ) ≤ ⌊((i : ℚ) + 2) * (((data.length : ℚ) - 2) / ((m : ℚ) - 2))⌋ := by
        rw [Int.le_floor]
        push_cast
        positivity
      omega
    · omega
  have hcmem : data.getD (min (⌊((i : ℚ) + 2) * (((data.length : ℚ) - 2) / ((m : ℚ) - 2))⌋ + 1)
      ((data.length : ℤ) - 1)).toNat dfltRow ∈ data := by
    apply getD_mem_of_lt
    have hle : min (⌊((i : ℚ) + 2) * (((data.length : ℚ) - 2) / ((m : ℚ) - 2))⌋ + 1)
        ((data.length : ℤ) - 1) ≤ (data.length : ℤ) - 1 := min_le_right _ _
    omega
  have hcnum := hnum _ hcmem
  have hval : ∀ j ∈ intRange (⌊(i : ℚ) * (((data.length : ℚ) - 2) / ((m : ℚ) - 2))⌋ + 1)
      (min (⌊((i : ℚ) + 1) * (((data.length : ℚ) - 2) / ((m : ℚ) - 2))⌋ + 1)
        ((data.length : ℤ) - 2)),
      (isValidNumber a.closing_index_value &&
        isValidNumber ((data.getD j.toNat dfltRow).closing_index_value) &&
        isValidNumber
          ((data.getD (min (⌊((i : ℚ) + 2) * (((data.length : ℚ) - 2) / ((m : ℚ) - 2))⌋ + 1)
            ((data.length : ℤ) - 1)).toNat dfltRow).closing_index_value)) = true ∧
      triArea a (data.getD j.toNat dfltRow)
          (data.getD (min (⌊((i : ℚ) + 2) * (((data.length : ℚ) - 2) / ((m : ℚ) - 2))⌋ + 1)
            ((data.length : ℤ) - 1)).toNat dfltRow) =
        JsNum.fin (specArea a (data.getD j.toNat dfltRow)
          (data.getD (min (⌊((i : ℚ) + 2) * (((data.length : ℚ) - 2) / ((m : ℚ) - 2))⌋ + 1)
            ((data.length : ℤ) - 1)).toNat dfltRow)) := by
    intro j hj
    rw [intRange_mem] at hj
    have hjmem : data.getD j.toNat dfltRow ∈ data := by
      apply getD_mem_of_lt
      have := hj.2
      have := le_trans this (min_le_right _ _)
      omega
    have hjnum := hnum _ hjmem
    refine ⟨?_, triArea_fin _ _ _ ha hjnum hcnum⟩
    rw [numericRow_validClose _ ha, numericRow_validClose _ hjnum,
      numericRow_validClose _ hcnum]
    rfl
  rcases scan_fold_spec data a
      (data.getD (min (⌊((i : ℚ) + 2) * (((data.length : ℚ) - 2) / ((m : ℚ) - 2))⌋ + 1)
        ((data.length : ℤ) - 1)).toNat dfltRow)
      (fun j => specArea a (data.getD j.toNat dfltRow)
        (data.getD (min (⌊((i : ℚ) + 2) * (((data.length : ℚ) - 2) / ((m : ℚ) - 2))⌋ + 1)
          ((data.length : ℤ) - 1)).toNat dfltRow))
      _ hval (⌊(i : ℚ) * (((data.length : ℚ) - 2) / ((m : ℚ) - 2))⌋ + 1) (-1) with
    hres | hres
  · exfalso
    have hlomem : (⌊(i : ℚ) * (((data.length : ℚ) - 2) / ((m : ℚ) - 2))⌋ + 1) ∈
        intRange (⌊(i : ℚ) * (((data.length : ℚ) - 2) / ((m : ℚ) - 2))⌋ + 1)
          (min (⌊((i : ℚ) + 1) * (((data.length : ℚ) - 2) / ((m : ℚ) - 2))⌋ + 1)
            ((data.length : ℤ) - 2)) := (intRange_mem _ _ _).mpr ⟨le_refl _, hlohi⟩
    have hle2 := hres.2 _ hlomem
    have habs : (0 : ℚ) ≤ specArea a
        (data.getD (⌊(i : ℚ) * (((data.length : ℚ) - 2) / ((m : ℚ) - 2))⌋ + 1).toNat dfltRow)
        (data.getD (min (⌊((i : ℚ) + 2) * (((data.length : ℚ) - 2) / ((m : ℚ) - 2))⌋ + 1)
          ((data.length : ℤ) - 1)).toNat dfltRow) := by
      unfold specArea
      positivity
    linarith
  · obtain ⟨hmem, hsnd, hwlt, hbound⟩ := hres
    rw [intRange_mem] at hmem
    refine ⟨_, hmem.1, hmem.2, ?_, ?_, ?_⟩
    · unfold lttbSelect
      rfl
    · intro k hk1 hk2
      exact hbound k ((intRange_mem _ _ _).mpr ⟨hk1, hk2⟩)
    · rintro ⟨k, ⟨hk1, hk2⟩, hklt⟩
      have hkb := hbound k ((intRange_mem _ _ _).mpr ⟨hk1, hk2⟩)
      have hstrict := lt_of_lt_of_le hklt hkb
      rcases lt_or_eq_of_le hmem.1 with h | h
      · exact h
      · exfalso
        rw [← h] at hstrict
        exact absurd hstrict (lt_irrefl _)

/-- Unrolling of the bucket loop: each selection is obtained from the
previous one by one bucket step. -/
theorem lttbFrom_chain (data : List RawRow) (bs : ℚ) :
    ∀ (fuel : ℕ) (a : RawRow) (i k : ℕ), k < fuel →
      (a :: lttbFrom data bs a i fuel).getD (k + 1) dfltRow =
        lttbSelect data bs ((a :: lttbFrom data bs a i fuel).getD k dfltRow) (i + k) := by
  intro fuel
  induction fuel with
  | zero => intro a i k hk; exact absurd hk (by omega)
  | succ f ih =>
    intro a i k hk
    cases k with
    | zero =>
      show (a :: lttbFrom data bs a i (f + 1)).getD 1 dfltRow =
        lttbSelect data bs a (i + 0)
      rw [Nat.add_zero]
      rfl
    | succ k2 =>
      have hk2 : k2 < f := by omega
      have hrec := ih (lttbSelect data bs a i) (i + 1) k2 hk2
      show (lttbSelect data bs a i ::
          lttbFrom data bs (lttbSelect data bs a i) (i + 1) f).getD (k2 + 1) dfltRow =
        lttbSelect data bs
          ((lttbSelect data bs a i ::
            lttbFrom data bs (lttbSelect data bs a i) (i + 1) f).getD k2 dfltRow)
          (i + (k2 + 1))
      have hidx : i + (k2 + 1) = (i + 1) + k2 := by omega
      rw [hrec, hidx]

/-- In the sampling branch, smartSampleData is the first point, the
bucket-loop selections, then the last point. -/
theorem smartSampleData_main (data : List RawRow) (m : ℤ) (hm : 2 < m)
    (hmn : m < (data.length : ℤ)) :
    smartSampleData data m =
      (data.getD 0 dfltRow ::
        lttbFrom data (((data.length : ℚ) - 2) / ((m : ℚ) - 2))
          (data.getD 0 dfltRow) 0 (m - 2).toNat) ++
        [data.getD (data.length - 1) dfltRow] := by
  have hne : data.isEmpty = false := by
    cases data with
    | nil => exact absurd hmn (by simp; omega)
    | cons x t => rfl
  unfold smartSampleData
  rw [if_neg (by simp [hne]), if_neg (by omega)]

/-- Entries of the sampler output before the final point coincide with
the corresponding prefix entries. -/
theorem out_getD_eq (data : List RawRow) (m : ℤ) (hm : 2 < m)
    (hmn : m < (data.length : ℤ)) (k : ℕ) (hk : k ≤ (m - 2).toNat) :
    (smartSampleData data m).getD k dfltRow =
      (data.getD 0 dfltRow ::
        lttbFrom data (((data.length : ℚ) - 2) / ((m : ℚ) - 2))
          (data.getD 0 dfltRow) 0 (m - 2).toNat).getD k dfltRow := by
  rw [smartSampleData_main data m hm hmn]
  apply List.getD_append
  rw [List.length_cons, lttbFrom_length]
  omega

/-- Every prefix entry of the sampler output is one of the input
records. -/
theorem out_prefix_mem (data : List RawRow) (m : ℤ) (hm : 2 < m)
    (hmn : m < (data.length : ℤ)) (hnum : ∀ r ∈ data, numericRow r = true) :
    ∀ k : ℕ, k ≤ (m - 2).toNat →
      (data.getD 0 dfltRow ::
        lttbFrom data (((data.length : ℚ) - 2) / ((m : ℚ) - 2))
          (data.getD 0 dfltRow) 0 (m - 2).toNat).getD k dfltRow ∈ data := by
  intro k
  induction k with
  | zero =>
    intro _
    exact getD_mem_of_lt data 0 (by omega)
  | succ k2 ih =>
    intro hk
    rw [lttbFrom_chain data (((data.length : ℚ) - 2) / ((m : ℚ) - 2)) (m - 2).toNat
      (data.getD 0 dfltRow) 0 k2 (by omega), Nat.zero_add]
    have hprev := ih (by omega)
    obtain ⟨j, hj1, hj2, hjeq, _, _⟩ := lttbSelect_spec data m
      ((data.getD 0 dfltRow ::
        lttbFrom data (((data.length : ℚ) - 2) / ((m : ℚ) - 2))
          (data.getD 0 dfltRow) 0 (m - 2).toNat).getD k2 dfltRow) k2
      hm hmn hnum (hnum _ hprev) (by omega)
    rw [hjeq]
    apply getD_mem_of_lt
    have := le_trans hj2 (min_le_right _ _)
    have hj0 : (0 : ℤ) ≤ j := by
      refine le_trans ?_ hj1
      have : (0 : ℤ) ≤ ⌊(k2 : ℚ) * (((data.length : ℚ) - 2) / ((m : ℚ) - 2))⌋ := by
        rw [Int.le_floor]
        push_cast
        exact mul_nonneg (by positivity) (le_of_lt (lttb_bs_pos data.length m hm hmn))
      omega
    omega

/-- C2: in the sampling branch (length > maxPoints > 2), each interior
bucket appends the record of the bucket whose shoelace area against the
previously appended record a and the next-bucket representative c is
maximal; whenever some candidate of the bucket has strictly larger area
than the bucket's first index, the appended record is not the first
index (the selection index is strictly past it). -/
theorem c2_bucket_argmax : ∀ (data : List RawRow) (m : ℤ),
    2 < m → m < (data.length : ℤ) →
    (∀ r ∈ data, numericRow r = true) →
    ∀ i : ℕ, i < (m - 2).toNat →
    ∃ j : ℤ,
      ⌊(i : ℚ) * (((data.length : ℚ) - 2) / ((m : ℚ) - 2))⌋ + 1 ≤ j ∧
      j ≤ min (⌊((i : ℚ) + 1) * (((data.length : ℚ) - 2) / ((m : ℚ) - 2))⌋ + 1)
        ((data.length : ℤ) - 2) ∧
      (smartSampleData data m).getD (i + 1) dfltRow = data.getD j.toNat dfltRow ∧
      (∀ k : ℤ,
        ⌊(i : ℚ) * (((data.length : ℚ) - 2) / ((m : ℚ) - 2))⌋ + 1 ≤ k →
        k ≤ min (⌊((i : ℚ) + 1) * (((data.length : ℚ) - 2) / ((m : ℚ) - 2))⌋ + 1)
          ((data.length : ℤ) - 2) →
        specArea ((smartSampleData data m).getD i dfltRow) (data.getD k.toNat dfltRow)
          (data.getD (min (⌊((i : ℚ) + 2) * (((data.length : ℚ) - 2) / ((m : ℚ) - 2))⌋ + 1)
            ((data.length : ℤ) - 1)).toNat dfltRow) ≤
        specArea ((smartSampleData data m).getD i dfltRow) (data.getD j.toNat dfltRow)
          (data.getD (min (⌊((i : ℚ) + 2) * (((data.length : ℚ) - 2) / ((m : ℚ) - 2))⌋ + 1)
            ((data.length : ℤ) - 1)).toNat dfltRow)) ∧
      ((∃ k : ℤ,
          (⌊(i : ℚ) * (((data.length : ℚ) - 2) / ((m : ℚ) - 2))⌋ + 1 ≤ k ∧
            k ≤ min (⌊((i : ℚ) + 1) * (((data.length : ℚ) - 2) / ((m : ℚ) - 2))⌋ + 1)
              ((data.length : ℤ) - 2)) ∧
          specArea ((smartSampleData data m).getD i dfltRow)
            (data.getD (⌊(i : ℚ) * (((data.length : ℚ) - 2) / ((m : ℚ) - 2))⌋ + 1).toNat dfltRow)
            (data.getD (min (⌊((i : ℚ) + 2) * (((data.length : ℚ) - 2) / ((m : ℚ) - 2))⌋ + 1)
              ((data.length : ℤ) - 1)).toNat dfltRow) <
          specArea ((smartSampleData data m).getD i dfltRow) (data.getD k.toNat dfltRow)
            (data.getD (min (⌊((i : ℚ) + 2) * (((data.length : ℚ) - 2) / ((m : ℚ) - 2))⌋ + 1)
              ((data.length : ℤ) - 1)).toNat dfltRow)) →
        ⌊(i : ℚ) * (((data.length : ℚ) - 2) / ((m : ℚ) - 2))⌋ + 1 < j) := by
  intro data m hm hmn hnum i hilt
  have hk : i ≤ (m - 2).toNat := le_of_lt hilt
  have hgetPrev := out_getD_eq data m hm hmn i hk
  have hprevMem := out_prefix_mem data m hm hmn hnum i hk
  obtain ⟨j, h1, h2, h3, h4, h5⟩ := lttbSelect_spec data m
    ((data.getD 0 dfltRow ::
      lttbFrom data (((data.length : ℚ) - 2) / ((m : ℚ) - 2))
        (data.getD 0 dfltRow) 0 (m - 2).toNat).getD i dfltRow) i
    hm hmn hnum (hnum _ hprevMem) (by omega)
  refine ⟨j, h1, h2, ?_, ?_, ?_⟩
  · rw [out_getD_eq data m hm hmn (i + 1) (by omega),
      lttbFrom_chain data (((data.length : ℚ) - 2) / ((m : ℚ) - 2)) (m - 2).toNat
        (data.getD 0 dfltRow) 0 i hilt, Nat.zero_add]
    exact h3
  · intro k hk1 hk2
    rw [hgetPrev]
    exact h4 k hk1 hk2
  · intro hex
    apply h5
    obtain ⟨k, hkb, hlt⟩ := hex
    rw [hgetPrev] at hlt
    exact ⟨k, hkb, hlt⟩

/-- C2 witness: the bucket-argmax statement instantiated at four
numeric records sampled down to three points, with one interior
bucket. -/
theorem c2_witness :
    2 < (3 : ℤ) ∧ (3 : ℤ) < (numData4.length : ℤ) ∧
    (∀ r ∈ numData4, numericRow r = true) ∧ (0 : ℕ) < ((3 : ℤ) - 2).toNat ∧
    (∃ j : ℤ,
      ⌊((0 : ℕ) : ℚ) * (((numData4.length : ℚ) - 2) / (((3 : ℤ) : ℚ) - 2))⌋ + 1 ≤ j ∧
      j ≤ min (⌊(((0 : ℕ) : ℚ) + 1) * (((numData4.length : ℚ) - 2) / (((3 : ℤ) : ℚ) - 2))⌋ + 1)
        ((numData4.length : ℤ) - 2) ∧
      (smartSampleData numData4 3).getD (0 + 1) dfltRow = numData4.getD j.toNat dfltRow ∧
      (∀ k : ℤ,
        ⌊((0 : ℕ) : ℚ) * (((numData4.length : ℚ) - 2) / (((3 : ℤ) : ℚ) - 2))⌋ + 1 ≤ k →
        k ≤ min (⌊(((0 : ℕ) : ℚ) + 1) * (((numData4.length : ℚ) - 2) / (((3 : ℤ) : ℚ) - 2))⌋ + 1)
          ((numData4.length : ℤ) - 2) →
        specArea ((smartSampleData numData4 3).getD 0 dfltRow) (numData4.getD k.toNat dfltRow)
          (numData4.getD (min (⌊(((0 : ℕ) : ℚ) + 2) * (((numData4.length : ℚ) - 2) / (((3 : ℤ) : ℚ) - 2))⌋ + 1)
            ((numData4.length : ℤ) - 1)).toNat dfltRow) ≤
        specArea ((smartSampleData numData4 3).getD 0 dfltRow) (numData4.getD j.toNat dfltRow)
          (numData4.getD (min (⌊(((0 : ℕ) : ℚ) + 2) * (((numData4.length : ℚ) - 2) / (((3 : ℤ) : ℚ) - 2))⌋ + 1)
            ((numData4.length : ℤ) - 1)).toNat dfltRow)) ∧
      ((∃ k : ℤ,
          (⌊((0 : ℕ) : ℚ) * (((numData4.length : ℚ) - 2) / (((3 : ℤ) : ℚ) - 2))⌋ + 1 ≤ k ∧
            k ≤ min (⌊(((0 : ℕ) : ℚ) + 1) * (((numData4.length : ℚ) - 2) / (((3 : ℤ) : ℚ) - 2))⌋ + 1)
              ((numData4.length : ℤ) - 2)) ∧
          specArea ((smartSampleData numData4 3).getD 0 dfltRow)
            (numData4.getD (⌊((0 : ℕ) : ℚ) * (((numData4.length : ℚ) - 2) / (((3 : ℤ) : ℚ) - 2))⌋ + 1).toNat dfltRow)
            (numData4.getD (min (⌊(((0 : ℕ) : ℚ) + 2) * (((numData4.length : ℚ) - 2) / (((3 : ℤ) : ℚ) - 2))⌋ + 1)
              ((numData4.length : ℤ) - 1)).toNat dfltRow) <
          specArea ((smartSampleData numData4 3).getD 0 dfltRow) (numData4.getD k.toNat dfltRow)
            (numData4.getD (min (⌊(((0 : ℕ) : ℚ) + 2) * (((numData4.length : ℚ) - 2) / (((3 : ℤ) : ℚ) - 2))⌋ + 1)
              ((numData4.length : ℤ) - 1)).toNat dfltRow)) →
        ⌊((0 : ℕ) : ℚ) * (((numData4.length : ℚ) - 2) / (((3 : ℤ) : ℚ) - 2))⌋ + 1 < j)) :=
  ⟨by decide, by decide, by decide, by decide,
    c2_bucket_argmax numData4 3 (by decide) (by decide) (by decide) 0 (by decide)⟩

